import Mathlib

/-!
# Verification of the chip8-rs interpreter core

A shallow embedding of `src/chip8.rs` (the CHIP-8 interpreter) in Lean 4,
together with theorems settling the specification claims about it.

Modelling conventions:
* `u8`/`u16` machine integers become `Nat`; wherever the Rust operation can
  wrap (u16 `+`/`-` on the program counter and index register, u8 `<<`) the
  embedding takes the result modulo the word size explicitly.  Guarded u8
  subtractions in the source never underflow and are plain `Nat` subtraction.
* The fixed-size Rust arrays (`memory`, `registers`, `display`, `input`)
  become total functions from `Nat`; the interpreter only ever addresses them
  inside their bounds under the claims' hypotheses.
* `Vec<u16>` (the call stack) becomes `List Nat` with the top at the head:
  `push` is cons, `pop` takes the head.
* `SmallRng` becomes a stream `rng : Nat → Nat` of successive `next_u32`
  results together with a cursor `rngPos`; `next_u32()` reads
  `rng rngPos` and advances the cursor.
* The one fallible operation, `stack.pop().unwrap()` in opcode 00EE, makes
  `execute_instruction` return `Option Chip8`; `none` models the panic.
* The Rust `for` loops (bounded ranges with `break`) become structural
  recursion on a fuel argument equal to the number of remaining iterations.
-/

/-- Pointwise update of a `Nat`-indexed function (an array write). -/
def updf (f : Nat → Nat) (i v : Nat) : Nat → Nat :=
  fun j => if j = i then v else f j

/-- Pointwise update of the display grid at column `x`, row `y`
(`display[y][x] = value` in the source). -/
def updDisp (d : Nat → Nat → Bool) (x y : Nat) (v : Bool) : Nat → Nat → Bool :=
  fun y' x' => if y' = y ∧ x' = x then v else d y' x'

def DISPLAY_WIDTH : Nat := 64
def DISPLAY_HEIGHT : Nat := 32

/-- The 80-byte font table (16 glyphs × 5 bytes) from `chip8.rs`. -/
def FONT : List Nat := [
  0xF0, 0x90, 0x90, 0x90, 0xF0,
  0x20, 0x60, 0x20, 0x20, 0x70,
  0xF0, 0x10, 0xF0, 0x80, 0xF0,
  0xF0, 0x10, 0xF0, 0x10, 0xF0,
  0x90, 0x90, 0xF0, 0x10, 0x10,
  0xF0, 0x80, 0xF0, 0x10, 0xF0,
  0xF0, 0x80, 0xF0, 0x90, 0xF0,
  0xF0, 0x10, 0x20, 0x40, 0x40,
  0xF0, 0x90, 0xF0, 0x90, 0xF0,
  0xF0, 0x90, 0xF0, 0x10, 0xF0,
  0xF0, 0x90, 0xF0, 0x90, 0x90,
  0xE0, 0x90, 0xE0, 0x90, 0xE0,
  0xF0, 0x80, 0x80, 0x80, 0xF0,
  0xE0, 0x90, 0x90, 0x90, 0xE0,
  0xF0, 0x80, 0x80, 0x80, 0xF0,
  0xF0, 0x80, 0xF0, 0x80, 0x80]

/-- The interpreter state (`struct Chip8` in `chip8.rs`). -/
structure Chip8 where
  display : Nat → Nat → Bool
  memory : Nat → Nat
  stack : List Nat
  pc : Nat
  registers : Nat → Nat
  index_register : Nat
  delay_timer : Nat
  sound_timer : Nat
  rng : Nat → Nat
  rngPos : Nat
  input : Nat → Bool

namespace Chip8

/-- `fn get_pixel(&self, x, y) -> Option<bool>`. -/
def get_pixel (c : Chip8) (x y : Nat) : Option Bool :=
  if x < DISPLAY_WIDTH ∧ y < DISPLAY_HEIGHT then some (c.display y x) else none

/-- `fn set_pixel(&mut self, x, y, value)`. -/
def set_pixel (c : Chip8) (x y : Nat) (value : Bool) : Chip8 :=
  if x < DISPLAY_WIDTH ∧ y < DISPLAY_HEIGHT then
    { c with display := updDisp c.display x y value }
  else c

/-- `fn load_to_memory(&mut self, data, start_pos)`: copy `data` into memory
starting at `start_pos`, in increasing address order. -/
def load_to_memory (c : Chip8) (data : List Nat) (start_pos : Nat) : Chip8 :=
  match data with
  | [] => c
  | d :: rest => load_to_memory { c with memory := updf c.memory start_pos d } rest (start_pos + 1)

/-- `Chip8::new()`: zeroed state, `pc = 0x200`, font loaded at `0x050`.
The RNG seed (`SmallRng::from_entropy()`) is a parameter. -/
def new (rng : Nat → Nat) : Chip8 :=
  load_to_memory
    { display := fun _ _ => false
      memory := fun _ => 0
      stack := []
      pc := 0x200
      registers := fun _ => 0
      index_register := 0
      delay_timer := 0
      sound_timer := 0
      rng := rng
      rngPos := 0
      input := fun _ => false }
    FONT 0x050

/-- `fn draw(&mut self)`: the 60 Hz frame tick that decrements each timer
if it is greater than 0. -/
def draw (c : Chip8) : Chip8 :=
  let c1 := if c.delay_timer > 0 then { c with delay_timer := c.delay_timer - 1 } else c
  if c1.sound_timer > 0 then { c1 with sound_timer := c1.sound_timer - 1 } else c1

/-- `fn fetch_instruction(&mut self) -> u16`: big-endian 16-bit read at `pc`,
then `pc += 2`.  Returns the instruction together with the advanced state. -/
def fetch_instruction (c : Chip8) : Nat × Chip8 :=
  ((c.memory c.pc <<< 8) + c.memory ((c.pc + 1) % 65536),
   { c with pc := (c.pc + 2) % 65536 })

/-- Inner loop body of `clear_screen`: `for j in 0..64 { set_pixel(j, i, false) }`,
with `fuel` remaining iterations. -/
def clearRow (i : Nat) : Nat → Nat → Chip8 → Chip8
  | 0, _, c => c
  | fuel + 1, j, c => clearRow i fuel (j + 1) (set_pixel c j i false)

/-- Outer loop of `fn clear_screen(&mut self)`: `for i in 0..32`. -/
def clearRows : Nat → Nat → Chip8 → Chip8
  | 0, _, c => c
  | fuel + 1, i, c => clearRows fuel (i + 1) (clearRow i DISPLAY_WIDTH 0 c)

/-- `fn clear_screen(&mut self)`. -/
def clear_screen (c : Chip8) : Chip8 :=
  clearRows DISPLAY_HEIGHT 0 c

/-- One iteration of the inner (bit) loop of `draw_sprite`, at bit `j` of
`byte`, drawing to `(x+j, yi)`: if the sprite bit is set, XOR-flip the pixel
and record a collision in `V15` when a lit pixel is turned off. -/
def drawBit (c : Chip8) (x yi byte j : Nat) : Chip8 :=
  if ((byte >>> (7 - j)) &&& 1) = 1 then
    match c.get_pixel (x + j) yi with
    | some screen_value =>
      let c2 := c.set_pixel (x + j) yi (!screen_value)
      if screen_value then { c2 with registers := updf c2.registers 15 1 } else c2
    | none => c
  else c

/-- The inner loop of `draw_sprite`: `for j in 0..8`, breaking as soon as
`x + j > DISPLAY_WIDTH`.  `fuel` is the number of remaining iterations. -/
def drawRow (x yi byte : Nat) : Nat → Nat → Chip8 → Chip8
  | 0, _, c => c
  | fuel + 1, j, c =>
    if x + j > DISPLAY_WIDTH then c
    else drawRow x yi byte fuel (j + 1) (drawBit c x yi byte j)

/-- The outer loop of `draw_sprite`: `for i in 0..height`, breaking as soon
as `y + i > DISPLAY_HEIGHT`; row `i` reads the sprite byte at `index` and
then increments `index`. -/
def drawRows (x y : Nat) : Nat → Nat → Nat → Chip8 → Chip8
  | 0, _, _, c => c
  | fuel + 1, i, index, c =>
    if y + i > DISPLAY_HEIGHT then c
    else drawRows x y fuel (i + 1) (index + 1) (drawRow x (y + i) (c.memory index) 8 0 c)

/-- `fn draw_sprite(&mut self, x, y, height)`: reset `V15` to 0, then blit
`height` sprite rows read from memory starting at the index register. -/
def draw_sprite (c : Chip8) (x y height : Nat) : Chip8 :=
  drawRows x y height 0 c.index_register { c with registers := updf c.registers 15 0 }

/-- The FX0A loop: `for key in self.input { if key { break; } self.pc -= 2; }`,
scanning keys `0..16` in order; `fuel` is the number of remaining keys. -/
def waitKeyLoop : Nat → Nat → Chip8 → Chip8
  | 0, _, c => c
  | fuel + 1, k, c =>
    if c.input k then c
    else waitKeyLoop fuel (k + 1) { c with pc := (c.pc + 65534) % 65536 }

/-- The FX55 loop: `for i in 0..n2+1 { memory[index_register + i] = registers[i] }`. -/
def storeRegs : Nat → Nat → Chip8 → Chip8
  | 0, _, c => c
  | fuel + 1, i, c =>
    storeRegs fuel (i + 1)
      { c with memory := updf c.memory ((c.index_register + i) % 65536) (c.registers i) }

/-- The FX65 loop: `for i in 0..n2+1 { registers[i] = memory[index_register + i] }`. -/
def loadRegs : Nat → Nat → Chip8 → Chip8
  | 0, _, c => c
  | fuel + 1, i, c =>
    loadRegs fuel (i + 1)
      { c with registers := updf c.registers i (c.memory ((c.index_register + i) % 65536)) }

/-- `fn execute_instruction(&mut self, instruction: u16)`.

Returns `none` exactly where the Rust code panics
(`self.stack.pop().unwrap()` on an empty stack in opcode 00EE). -/
def execute_instruction (c : Chip8) (instruction : Nat) : Option Chip8 :=
  let n1 := (instruction >>> 12) &&& 0xf
  let n2 := (instruction >>> 8) &&& 0xf
  let n3 := (instruction >>> 4) &&& 0xf
  let n4 := instruction &&& 0xf
  let n3n4 := instruction &&& 0xff
  let n2n3n4 := instruction &&& 0xfff
  if n1 = 0x0 then
    if instruction = 0x00e0 then some (clear_screen c)
    else if instruction = 0x00ee then
      match c.stack with
      | [] => none
      | a :: rest => some { c with pc := a, stack := rest }
    else some c
  else if n1 = 0x1 then
    some { c with pc := n2n3n4 }
  else if n1 = 0x2 then
    some { c with stack := c.pc :: c.stack, pc := n2n3n4 }
  else if n1 = 0x3 then
    some (if c.registers n2 = n3n4 then { c with pc := (c.pc + 2) % 65536 } else c)
  else if n1 = 0x4 then
    some (if c.registers n2 ≠ n3n4 then { c with pc := (c.pc + 2) % 65536 } else c)
  else if n1 = 0x5 then
    some (if c.registers n2 = c.registers n3 then { c with pc := (c.pc + 2) % 65536 } else c)
  else if n1 = 0x6 then
    some { c with registers := updf c.registers n2 n3n4 }
  else if n1 = 0x7 then
    let buffer := c.registers n2 + n3n4
    some { c with registers := updf c.registers n2 (buffer % 256) }
  else if n1 = 0x8 then
    if n4 = 0x0 then
      some { c with registers := updf c.registers n2 (c.registers n3) }
    else if n4 = 0x1 then
      some { c with registers := updf c.registers n2 (c.registers n2 ||| c.registers n3) }
    else if n4 = 0x2 then
      some { c with registers := updf c.registers n2 (c.registers n2 &&& c.registers n3) }
    else if n4 = 0x3 then
      some { c with registers := updf c.registers n2 (c.registers n2 ^^^ c.registers n3) }
    else if n4 = 0x4 then
      let buffer := c.registers n2 + c.registers n3
      let c1 := { c with registers := updf c.registers 0xf (if buffer > 255 then 1 else 0) }
      some { c1 with registers := updf c1.registers n2 (buffer % 256) }
    else if n4 = 0x5 then
      if c.registers n2 ≥ c.registers n3 then
        let c1 := { c with registers := updf c.registers n2 (c.registers n2 - c.registers n3) }
        some { c1 with registers := updf c1.registers 0xf 1 }
      else
        let r1 := updf c.registers n2 (255 - (c.registers n3 - c.registers n2) + 1)
        let c1 := { c with registers := r1 }
        some { c1 with registers := updf c1.registers 0xf 0 }
    else if n4 = 0x6 then
      let c1 := { c with registers := updf c.registers 0xf (c.registers n2 &&& 1) }
      some { c1 with registers := updf c1.registers n2 (c1.registers n2 >>> 1) }
    else if n4 = 0x7 then
      if c.registers n3 ≥ c.registers n2 then
        let c1 := { c with registers := updf c.registers n3 (c.registers n3 - c.registers n2) }
        some { c1 with registers := updf c1.registers 0xf 1 }
      else
        let r1 := updf c.registers n3 (255 - (c.registers n2 - c.registers n3) + 1)
        let c1 := { c with registers := r1 }
        some { c1 with registers := updf c1.registers 0xf 0 }
    else if n4 = 0xe then
      let c1 := { c with registers := updf c.registers 0xf ((c.registers n2 >>> 7) &&& 1) }
      some { c1 with registers := updf c1.registers n2 ((c1.registers n2 <<< 1) % 256) }
    else some c
  else if n1 = 0x9 then
    some (if c.registers n2 ≠ c.registers n3 then { c with pc := (c.pc + 2) % 65536 } else c)
  else if n1 = 0xa then
    some { c with index_register := n2n3n4 }
  else if n1 = 0xb then
    some { c with pc := (n2n3n4 + c.registers 0) % 65536 }
  else if n1 = 0xc then
    let random := (c.rng c.rngPos) &&& 0b1111
    some { c with registers := updf c.registers n2 (random &&& n3n4), rngPos := c.rngPos + 1 }
  else if n1 = 0xd then
    let x := c.registers n2 % DISPLAY_WIDTH
    let y := c.registers n3 % DISPLAY_HEIGHT
    some (draw_sprite c x y n4)
  else if n1 = 0xe then
    if n3n4 = 0x9e then
      let key := c.registers n2
      some (if c.input key then { c with pc := (c.pc + 2) % 65536 } else c)
    else if n3n4 = 0xa1 then
      let key := c.registers n2
      some (if ¬ c.input key then { c with pc := (c.pc + 2) % 65536 } else c)
    else some c
  else if n1 = 0xf then
    if n3n4 = 0x07 then
      some { c with registers := updf c.registers n2 c.delay_timer }
    else if n3n4 = 0x15 then
      some { c with delay_timer := c.registers n2 }
    else if n3n4 = 0x18 then
      some { c with sound_timer := c.registers n2 }
    else if n3n4 = 0x1e then
      some { c with index_register := (c.index_register + c.registers n2) % 65536 }
    else if n3n4 = 0x0a then
      some (waitKeyLoop 16 0 c)
    else if n3n4 = 0x29 then
      let char := c.registers n2 &&& 0b1111
      some { c with index_register := c.memory (0x050 + 5 * char) }
    else if n3n4 = 0x33 then
      let num := c.registers n2
      let index := c.index_register
      let c1 := { c with memory := updf c.memory index ((num / 100) % 10) }
      let c2 := { c1 with memory := updf c1.memory (index + 1) ((num / 10) % 10) }
      some { c2 with memory := updf c2.memory (index + 2) (num % 10) }
    else if n3n4 = 0x55 then
      some (storeRegs (n2 + 1) 0 c)
    else if n3n4 = 0x65 then
      some (loadRegs (n2 + 1) 0 c)
    else some c
  else some c

/-- `fn update(&mut self)`: one fetch-decode-execute cycle. -/
def update (c : Chip8) : Option Chip8 :=
  let p := fetch_instruction c
  execute_instruction p.2 p.1

end Chip8

/-- Builds the 16-bit instruction word with nibbles `a b d e` (big-endian). -/
def opcode (a b d e : Nat) : Nat :=
  a * 4096 + b * 256 + d * 16 + e

/-- A concrete interpreter state (all components zeroed, `pc = 0x200`),
used to instantiate theorems at specific inputs. -/
def testState : Chip8 :=
  { display := fun _ _ => false
    memory := fun _ => 0
    stack := []
    pc := 0x200
    registers := fun _ => 0
    index_register := 0
    delay_timer := 0
    sound_timer := 0
    rng := fun _ => 0
    rngPos := 0
    input := fun _ => false }

/-- Concrete state for the 8XY7 counterexample: `V0 = 10`, all other
registers (in particular `VF`) zero. -/
def c8state : Chip8 :=
  { testState with registers := updf testState.registers 0 10 }

/-- Concrete state with `V0 = 5`, `V1 = 10`, used for the 8XY5/8XY7
subtraction witnesses. -/
def c3state : Chip8 :=
  { testState with registers := updf (updf testState.registers 0 5) 1 10 }

/-- Concrete state for the FX0A failing input: a fresh interpreter with the
two-byte program `F0 0A` (opcode FX0A with X = 0) loaded at `0x200` and no
key held. -/
def c2state : Chip8 :=
  Chip8.load_to_memory (Chip8.new (fun _ => 0)) [0xF0, 0x0A] 0x200

/-- Concrete state with `V0 = 7`, `V1 = 9` and index register `0x300`, used
for the FX55/FX65 round-trip witness. -/
def c6state : Chip8 :=
  { testState with registers := updf (updf testState.registers 0 7) 1 9,
                   index_register := 0x300 }

/-- Concrete state for the double-draw witness: a one-byte sprite `0x80`
(single set bit, top-left) at address 0x300, index register 0x300, blank
display, all registers zero. -/
def c4state : Chip8 :=
  { testState with memory := updf testState.memory 0x300 0x80,
                   index_register := 0x300 }

/-- The set of framebuffer cells flipped by the inner (bit) loop of
`draw_sprite` when started at bit `j` with `fuel` iterations left: cell
`(cx, cy)` is hit when it lies on row `yi` (inside the grid) at a column
`x + (j+t)` (inside the grid) whose sprite bit `j+t` of `byte` is set. -/
def rowHit (x yi byte j fuel cy cx : Nat) : Prop :=
  cy = yi ∧ yi < 32 ∧
    ∃ t, t < fuel ∧ cx = x + (j + t) ∧ x + (j + t) < 64 ∧
      ((byte >>> (7 - (j + t))) &&& 1) = 1

/-- Collision condition of the inner (bit) loop of `draw_sprite` over
display `d`: some in-grid set sprite bit lands on a lit pixel of row `yi`. -/
def rowVF (d : Nat → Nat → Bool) (x yi byte j fuel : Nat) : Prop :=
  yi < 32 ∧
    ∃ t, t < fuel ∧ x + (j + t) < 64 ∧ ((byte >>> (7 - (j + t))) &&& 1) = 1 ∧
      d yi (x + (j + t)) = true

/-- The set of framebuffer cells flipped by `draw_sprite`'s row loop over
sprite memory `m`, started at row `i` with byte pointer `index` and `fuel`
rows left. -/
def sprHit (m : Nat → Nat) (x y index i fuel cy cx : Nat) : Prop :=
  ∃ s, s < fuel ∧ cy = y + (i + s) ∧ y + (i + s) < 32 ∧
    ∃ t, t < 8 ∧ cx = x + t ∧ x + t < 64 ∧ ((m (index + s) >>> (7 - t)) &&& 1) = 1

/-- Collision condition of `draw_sprite`'s row loop: some in-grid set sprite
bit lands on a lit pixel of display `d`. -/
def sprVF (m : Nat → Nat) (d : Nat → Nat → Bool) (x y index i fuel : Nat) : Prop :=
  ∃ s, s < fuel ∧ y + (i + s) < 32 ∧
    ∃ t, t < 8 ∧ x + t < 64 ∧ ((m (index + s) >>> (7 - t)) &&& 1) = 1 ∧
      d (y + (i + s)) (x + t) = true

instance (x yi byte j fuel cy cx : Nat) : Decidable (rowHit x yi byte j fuel cy cx) := by
  unfold rowHit
  infer_instance

instance (d : Nat → Nat → Bool) (x yi byte j fuel : Nat) : Decidable (rowVF d x yi byte j fuel) := by
  unfold rowVF
  infer_instance

instance (m : Nat → Nat) (x y index i fuel cy cx : Nat) :
    Decidable (sprHit m x y index i fuel cy cx) := by
  unfold sprHit
  infer_instance

instance (m : Nat → Nat) (d : Nat → Nat → Bool) (x y index i fuel : Nat) :
    Decidable (sprVF m d x y index i fuel) := by
  unfold sprVF
  infer_instance

/-! ## Instruction-word decoding lemmas -/

theorem and_mod_16 (n : Nat) : n &&& 0xf = n % 16 := by
  have h := Nat.and_pow_two_sub_one_eq_mod n 4
  norm_num at h
  exact h

theorem and_mod_256 (n : Nat) : n &&& 0xff = n % 256 := by
  have h := Nat.and_pow_two_sub_one_eq_mod n 8
  norm_num at h
  exact h

theorem and_mod_4096 (n : Nat) : n &&& 0xfff = n % 4096 := by
  have h := Nat.and_pow_two_sub_one_eq_mod n 12
  norm_num at h
  exact h

theorem shiftr12_eq (n : Nat) : n >>> 12 = n / 4096 := by
  rw [Nat.shiftRight_eq_div_pow]

theorem shiftr8_eq (n : Nat) : n >>> 8 = n / 256 := by
  rw [Nat.shiftRight_eq_div_pow]

theorem shiftr4_eq (n : Nat) : n >>> 4 = n / 16 := by
  rw [Nat.shiftRight_eq_div_pow]

theorem nib1 (a b d e : Nat) (ha : a < 16) (hb : b < 16) (hd : d < 16) (he : e < 16) :
    (opcode a b d e >>> 12) &&& 0xf = a := by
  rw [shiftr12_eq, and_mod_16]
  unfold opcode
  omega

theorem nib2 (a b d e : Nat) (ha : a < 16) (hb : b < 16) (hd : d < 16) (he : e < 16) :
    (opcode a b d e >>> 8) &&& 0xf = b := by
  rw [shiftr8_eq, and_mod_16]
  unfold opcode
  omega

theorem nib3 (a b d e : Nat) (ha : a < 16) (hb : b < 16) (hd : d < 16) (he : e < 16) :
    (opcode a b d e >>> 4) &&& 0xf = d := by
  rw [shiftr4_eq, and_mod_16]
  unfold opcode
  omega

theorem nib4 (a b d e : Nat) (ha : a < 16) (hb : b < 16) (hd : d < 16) (he : e < 16) :
    opcode a b d e &&& 0xf = e := by
  rw [and_mod_16]
  unfold opcode
  omega

theorem nib34 (a b d e : Nat) (ha : a < 16) (hb : b < 16) (hd : d < 16) (he : e < 16) :
    opcode a b d e &&& 0xff = d * 16 + e := by
  rw [and_mod_256]
  unfold opcode
  omega

theorem nib234 (a b d e : Nat) (ha : a < 16) (hb : b < 16) (hd : d < 16) (he : e < 16) :
    opcode a b d e &&& 0xfff = b * 256 + d * 16 + e := by
  rw [and_mod_4096]
  unfold opcode
  omega

/-! ## Array-update lemmas -/

theorem updf_self (f : Nat → Nat) (i v : Nat) : updf f i v i = v := by
  simp [updf]

theorem updf_other (f : Nat → Nat) (i v j : Nat) (h : j ≠ i) : updf f i v j = f j := by
  simp [updf, h]

/-! ## Timer lemmas -/

theorem draw_delay_timer (c : Chip8) : (c.draw).delay_timer = c.delay_timer - 1 := by
  by_cases h1 : c.delay_timer > 0 <;> by_cases h2 : c.sound_timer > 0 <;>
    simp [Chip8.draw, h1, h2] <;> omega

theorem draw_sound_timer (c : Chip8) : (c.draw).sound_timer = c.sound_timer - 1 := by
  by_cases h1 : c.delay_timer > 0 <;> by_cases h2 : c.sound_timer > 0 <;>
    simp [Chip8.draw, h1, h2] <;> omega

theorem draw_iterate_delay (c : Chip8) (n : Nat) :
    (Chip8.draw^[n] c).delay_timer = c.delay_timer - n := by
  induction n with
  | zero => simp
  | succ k ih =>
    rw [Function.iterate_succ_apply', draw_delay_timer, ih]
    omega

/-- C9: one frame tick (`draw`) decrements each of the delay and sound timers
by exactly 1 when the timer is positive and leaves a zero timer at zero (no
wrap to 255); the timers are non-increasing under ticks, and from delay timer
1 every state reached by two or more ticks has delay timer 0. -/
theorem C9_timer_tick (c : Chip8) :
    (0 < c.delay_timer → (c.draw).delay_timer = c.delay_timer - 1) ∧
    (c.delay_timer = 0 → (c.draw).delay_timer = 0) ∧
    (0 < c.sound_timer → (c.draw).sound_timer = c.sound_timer - 1) ∧
    (c.sound_timer = 0 → (c.draw).sound_timer = 0) ∧
    (c.draw).delay_timer ≤ c.delay_timer ∧
    (c.draw).sound_timer ≤ c.sound_timer ∧
    (c.delay_timer = 1 → ∀ k, (Chip8.draw^[k + 2] c).delay_timer = 0) := by
  refine ⟨fun _ => draw_delay_timer c, ?_, fun _ => draw_sound_timer c, ?_, ?_, ?_, ?_⟩
  · intro h; rw [draw_delay_timer, h]
  · intro h; rw [draw_sound_timer, h]
  · rw [draw_delay_timer]; omega
  · rw [draw_sound_timer]; omega
  · intro h k
    rw [draw_iterate_delay, h]
    omega

/-- Witness for C9 at a concrete state with delay timer 1: two ticks reach 0. -/
theorem C9_timer_tick_witness :
    ({ testState with delay_timer := 1 } : Chip8).delay_timer = 1 ∧
    (Chip8.draw^[0 + 2] { testState with delay_timer := 1 }).delay_timer = 0 :=
  ⟨rfl, (C9_timer_tick { testState with delay_timer := 1 }).2.2.2.2.2.2 rfl 0⟩

/-- C10: executing opcode 00EE with a non-empty call stack sets the program
counter to the most recently pushed return address, removes it from the stack
and changes no other state; with an empty stack the code's
`stack.pop().unwrap()` panics, modelled here as `none`. -/
theorem C10_return_pops_stack (c : Chip8) :
    (c.stack = [] → c.execute_instruction 0x00EE = none) ∧
    (∀ a rest, c.stack = a :: rest →
      c.execute_instruction 0x00EE = some { c with pc := a, stack := rest }) := by
  have key : c.execute_instruction 0x00EE =
      (match c.stack with
       | [] => none
       | a :: rest => some { c with pc := a, stack := rest }) := rfl
  constructor
  · intro h
    rw [key, h]
  · intro a rest h
    rw [key, h]

/-- Witness for C10 at a concrete state with stack `[0x123]`. -/
theorem C10_return_pops_stack_witness :
    Chip8.execute_instruction { testState with stack := [0x123] } 0x00EE =
      some { { testState with stack := [0x123] } with pc := 0x123, stack := [] } :=
  (C10_return_pops_stack { testState with stack := [0x123] }).2 0x123 [] rfl

/-- C1: the claim says FX29 sets the index register to the font glyph ADDRESS
`0x050 + 5 * (VX AND 0xF)`; the code instead loads the font BYTE stored at
that address.  On a fresh interpreter with `V0 = 0`, opcode F029 leaves the
index register at `memory[0x050] = 0xF0 = 240`, not at the address `0x050`. -/
theorem C1_fx29_loads_byte_not_address :
    (Chip8.execute_instruction (Chip8.new (fun _ => 0)) 0xF029).map Chip8.index_register =
      some 0xF0 ∧
    (Chip8.new (fun _ => 0)).registers 0 &&& 0xF = 0 ∧
    (0xF0 : Nat) ≠ 0x050 + 5 * 0 :=
  ⟨rfl, rfl, by decide⟩

/-- C2: the claim says one FX0A cycle with no key held leaves the program
counter exactly unchanged (rewind 2 cancelling the fetch advance 2); the
code's wait loop instead rewinds by 2 once per unheld key it scans.  With the
program `F0 0A` at `0x200` and no key held, one `update` cycle moves the
program counter from `0x200` to `0x202 - 32 = 0x1E2`. -/
theorem C2_fx0a_rewinds_per_key :
    c2state.pc = 0x200 ∧
    (∀ k, c2state.input k = false) ∧
    (Chip8.update c2state).map Chip8.pc = some 0x1E2 ∧
    (0x1E2 : Nat) ≠ 0x200 :=
  ⟨rfl, fun _ => rfl, rfl, by decide⟩

/-- C8 counterexample: the claim quantifies over all X ≠ Y with Y ≠ 0xF only,
and asserts VX is left unchanged; at X = 0xF, Y = 0 with VF = 0, V0 = 10 the
code sets VF (= VX) to the borrow flag 1, so VX is changed. -/
theorem C8_counterexample :
    (Chip8.execute_instruction c8state 0x8F07).map (fun s => s.registers 0xF) = some 1 ∧
    c8state.registers 0xF = 0 ∧ (1 : Nat) ≠ 0 :=
  ⟨rfl, rfl, by decide⟩

/-- C3: 8XY5 sets VF to the no-borrow flag (1 iff VX ≥ VY) and VX to
(VX − VY) mod 256 (written over `Nat` as `(VX + 256 − VY) % 256`). -/
theorem C3_8XY5_sub_borrow (c : Chip8) (X Y : Nat) (hX : X < 16) (hY : Y < 16)
    (hXF : X ≠ 0xF) (hXY : X ≠ Y)
    (hvx : c.registers X < 256) (hvy : c.registers Y < 256) :
    ∃ c', c.execute_instruction (opcode 0x8 X Y 0x5) = some c' ∧
      c'.registers 0xF = (if c.registers Y ≤ c.registers X then 1 else 0) ∧
      c'.registers X = (c.registers X + 256 - c.registers Y) % 256 := by
  have h1 := nib1 0x8 X Y 0x5 (by norm_num) hX hY (by norm_num)
  have h2 := nib2 0x8 X Y 0x5 (by norm_num) hX hY (by norm_num)
  have h3 := nib3 0x8 X Y 0x5 (by norm_num) hX hY (by norm_num)
  have h4 := nib4 0x8 X Y 0x5 (by norm_num) hX hY (by norm_num)
  have step : c.execute_instruction (opcode 0x8 X Y 0x5) =
      if c.registers X ≥ c.registers Y then
        some { c with registers := updf (updf c.registers X (c.registers X - c.registers Y)) 0xf 1 }
      else
        some { c with registers := updf (updf c.registers X (255 - (c.registers Y - c.registers X) + 1)) 0xf 0 } := by
    simp only [Chip8.execute_instruction, h1, h2, h3, h4]
    norm_num
  rw [step]
  by_cases hge : c.registers Y ≤ c.registers X
  · rw [if_pos hge]
    refine ⟨_, rfl, ?_, ?_⟩
    · dsimp only
      rw [updf_self]
      simp [hge]
    · dsimp only
      rw [updf_other _ _ _ _ hXF, updf_self]
      omega
  · rw [if_neg (by omega)]
    refine ⟨_, rfl, ?_, ?_⟩
    · dsimp only
      rw [updf_self]
      simp [hge]
    · dsimp only
      rw [updf_other _ _ _ _ hXF, updf_self]
      omega

/-- Witness for C3 at VX = V0 = 5, VY = V1 = 10, showing the 5 − 10 case. -/
theorem C3_8XY5_sub_borrow_witness :
    c3state.registers 0 = 5 ∧ c3state.registers 1 = 10 ∧
    ∃ c', c3state.execute_instruction (opcode 0x8 0 1 0x5) = some c' ∧
      c'.registers 0xF = (if c3state.registers 1 ≤ c3state.registers 0 then 1 else 0) ∧
      c'.registers 0 = (c3state.registers 0 + 256 - c3state.registers 1) % 256 :=
  ⟨rfl, rfl, C3_8XY5_sub_borrow c3state 0 1 (by decide) (by decide) (by decide) (by decide)
    (by decide) (by decide)⟩

/-- C8 amended (the original claim fails at X = 0xF, see `C8_counterexample`):
for X, Y with X ≠ 0xF, Y ≠ 0xF and X ≠ Y, 8XY7 sets VF to 1 iff VY ≥ VX,
sets VY to (VY − VX) mod 256, and leaves VX unchanged. -/
theorem C8_8XY7_amended (c : Chip8) (X Y : Nat) (hX : X < 16) (hY : Y < 16)
    (hXF : X ≠ 0xF) (hYF : Y ≠ 0xF) (hXY : X ≠ Y)
    (hvx : c.registers X < 256) (hvy : c.registers Y < 256) :
    ∃ c', c.execute_instruction (opcode 0x8 X Y 0x7) = some c' ∧
      c'.registers 0xF = (if c.registers X ≤ c.registers Y then 1 else 0) ∧
      c'.registers Y = (c.registers Y + 256 - c.registers X) % 256 ∧
      c'.registers X = c.registers X := by
  have h1 := nib1 0x8 X Y 0x7 (by norm_num) hX hY (by norm_num)
  have h2 := nib2 0x8 X Y 0x7 (by norm_num) hX hY (by norm_num)
  have h3 := nib3 0x8 X Y 0x7 (by norm_num) hX hY (by norm_num)
  have h4 := nib4 0x8 X Y 0x7 (by norm_num) hX hY (by norm_num)
  have step : c.execute_instruction (opcode 0x8 X Y 0x7) =
      if c.registers Y ≥ c.registers X then
        some { c with registers := updf (updf c.registers Y (c.registers Y - c.registers X)) 0xf 1 }
      else
        some { c with registers := updf (updf c.registers Y (255 - (c.registers X - c.registers Y) + 1)) 0xf 0 } := by
    simp only [Chip8.execute_instruction, h1, h2, h3, h4]
    norm_num
  rw [step]
  by_cases hge : c.registers X ≤ c.registers Y
  · rw [if_pos hge]
    refine ⟨_, rfl, ?_, ?_, ?_⟩
    · dsimp only
      rw [updf_self]
      simp [hge]
    · dsimp only
      rw [updf_other _ _ _ _ hYF, updf_self]
      omega
    · dsimp only
      rw [updf_other _ _ _ _ hXF, updf_other _ _ _ _ hXY]
  · rw [if_neg (by omega)]
    refine ⟨_, rfl, ?_, ?_, ?_⟩
    · dsimp only
      rw [updf_self]
      simp [hge]
    · dsimp only
      rw [updf_other _ _ _ _ hYF, updf_self]
      omega
    · dsimp only
      rw [updf_other _ _ _ _ hXF, updf_other _ _ _ _ hXY]

/-- Witness for the amended C8 at X = 0, Y = 1 with V0 = 5, V1 = 10. -/
theorem C8_8XY7_amended_witness :
    c3state.registers 0 = 5 ∧ c3state.registers 1 = 10 ∧
    ∃ c', c3state.execute_instruction (opcode 0x8 0 1 0x7) = some c' ∧
      c'.registers 0xF = (if c3state.registers 0 ≤ c3state.registers 1 then 1 else 0) ∧
      c'.registers 1 = (c3state.registers 1 + 256 - c3state.registers 0) % 256 ∧
      c'.registers 0 = c3state.registers 0 :=
  ⟨rfl, rfl, C8_8XY7_amended c3state 0 1 (by decide) (by decide) (by decide) (by decide)
    (by decide) (by decide) (by decide)⟩

/-- C7: CXNN (with mask NN written by its nibbles, NN = d·16 + e) sets VX to
r AND NN for the 4-bit value r drawn from the random source, so the result is
always below 16 (its high nibble is zero), whatever the random stream holds. -/
theorem C7_random_masked (c : Chip8) (X d e : Nat) (hX : X < 16) (hd : d < 16) (he : e < 16) :
    ∃ c', c.execute_instruction (opcode 0xC X d e) = some c' ∧
      ∃ r, r < 16 ∧ c'.registers X = r &&& (d * 16 + e) ∧ c'.registers X < 16 := by
  have h1 := nib1 0xC X d e (by norm_num) hX hd he
  have h2 := nib2 0xC X d e (by norm_num) hX hd he
  have h34 := nib34 0xC X d e (by norm_num) hX hd he
  have step : c.execute_instruction (opcode 0xC X d e) =
      some { c with registers := updf c.registers X ((c.rng c.rngPos &&& 0b1111) &&& (d * 16 + e)),
                    rngPos := c.rngPos + 1 } := by
    simp only [Chip8.execute_instruction, h1, h2, h34]
    norm_num
  rw [step]
  refine ⟨_, rfl, c.rng c.rngPos &&& 0b1111, ?_, ?_, ?_⟩
  · rw [and_mod_16]
    omega
  · dsimp only
    rw [updf_self]
  · dsimp only
    rw [updf_self]
    calc (c.rng c.rngPos &&& 0b1111) &&& (d * 16 + e) ≤ c.rng c.rngPos &&& 0b1111 :=
          Nat.and_le_left
      _ < 16 := by rw [and_mod_16]; omega

/-- Witness for C7 at X = 2, NN = 0x37 on a concrete state. -/
theorem C7_random_masked_witness :
    ∃ c', testState.execute_instruction (opcode 0xC 2 3 7) = some c' ∧
      ∃ r, r < 16 ∧ c'.registers 2 = r &&& (3 * 16 + 7) ∧ c'.registers 2 < 16 :=
  C7_random_masked testState 2 3 7 (by decide) (by decide) (by decide)

/-! ## FX55/FX65 loop lemmas -/

theorem storeRegs_index (fuel : Nat) : ∀ (i : Nat) (c : Chip8),
    (Chip8.storeRegs fuel i c).index_register = c.index_register := by
  induction fuel with
  | zero => intro i c; rfl
  | succ f ih =>
    intro i c
    simp only [Chip8.storeRegs]
    rw [ih]

theorem storeRegs_registers (fuel : Nat) : ∀ (i : Nat) (c : Chip8),
    (Chip8.storeRegs fuel i c).registers = c.registers := by
  induction fuel with
  | zero => intro i c; rfl
  | succ f ih =>
    intro i c
    simp only [Chip8.storeRegs]
    rw [ih]

theorem storeRegs_memory_frame (fuel : Nat) : ∀ (i : Nat) (c : Chip8) (I a : Nat),
    c.index_register = I →
    (∀ t, t < fuel → a ≠ (I + (i + t)) % 65536) →
    (Chip8.storeRegs fuel i c).memory a = c.memory a := by
  induction fuel with
  | zero => intro i c I a _ _; rfl
  | succ f ih =>
    intro i c I a hI h
    simp only [Chip8.storeRegs]
    rw [ih (i + 1)
      { c with memory := updf c.memory ((c.index_register + i) % 65536) (c.registers i) }
      I a hI ?_]
    · show updf c.memory ((c.index_register + i) % 65536) (c.registers i) a = c.memory a
      rw [hI]
      exact updf_other _ _ _ _ (by have h0 := h 0 (by omega); simpa using h0)
    · intro t ht
      have heq : i + 1 + t = i + (t + 1) := by omega
      rw [heq]
      exact h (t + 1) (by omega)

theorem storeRegs_memory_hit (fuel : Nat) : ∀ (i : Nat) (c : Chip8) (I k : Nat),
    c.index_register = I → i ≤ k → k < i + fuel → I + i + fuel ≤ 65536 →
    (Chip8.storeRegs fuel i c).memory (I + k) = c.registers k := by
  induction fuel with
  | zero => intro i c I k _ h1 h2 _; omega
  | succ f ih =>
    intro i c I k hI h1 h2 hb
    simp only [Chip8.storeRegs]
    by_cases hk : k = i
    · rw [storeRegs_memory_frame f (i + 1)
        { c with memory := updf c.memory ((c.index_register + i) % 65536) (c.registers i) }
        I (I + k) hI ?_]
      · show updf c.memory ((c.index_register + i) % 65536) (c.registers i) (I + k) = c.registers k
        rw [hI, hk, Nat.mod_eq_of_lt (by omega), updf_self]
      · intro t ht
        rw [Nat.mod_eq_of_lt (by omega)]
        omega
    · exact ih (i + 1)
        { c with memory := updf c.memory ((c.index_register + i) % 65536) (c.registers i) }
        I k hI (by omega) (by omega) (by omega)

theorem loadRegs_memory (fuel : Nat) : ∀ (i : Nat) (c : Chip8),
    (Chip8.loadRegs fuel i c).memory = c.memory := by
  induction fuel with
  | zero => intro i c; rfl
  | succ f ih =>
    intro i c
    simp only [Chip8.loadRegs]
    rw [ih]

theorem loadRegs_registers_lo (fuel : Nat) : ∀ (i : Nat) (c : Chip8) (r : Nat), r < i →
    (Chip8.loadRegs fuel i c).registers r = c.registers r := by
  induction fuel with
  | zero => intro i c r _; rfl
  | succ f ih =>
    intro i c r hr
    simp only [Chip8.loadRegs]
    rw [ih (i + 1) _ r (by omega)]
    show updf c.registers i (c.memory ((c.index_register + i) % 65536)) r = c.registers r
    exact updf_other _ _ _ _ (by omega)

theorem loadRegs_registers_hit (fuel : Nat) : ∀ (i : Nat) (c : Chip8) (I r : Nat),
    c.index_register = I → i ≤ r → r < i + fuel →
    (Chip8.loadRegs fuel i c).registers r = c.memory ((I + r) % 65536) := by
  induction fuel with
  | zero => intro i c I r _ h1 h2; omega
  | succ f ih =>
    intro i c I r hI h1 h2
    simp only [Chip8.loadRegs]
    by_cases hr : r = i
    · rw [loadRegs_registers_lo f (i + 1)
        { c with registers := updf c.registers i (c.memory ((c.index_register + i) % 65536)) }
        r (by omega)]
      show updf c.registers i (c.memory ((c.index_register + i) % 65536)) r = _
      rw [hr, updf_self, hI]
    · exact ih (i + 1)
        { c with registers := updf c.registers i (c.memory ((c.index_register + i) % 65536)) }
        I r hI (by omega) (by omega)

/-- C6: storing V0..VX with FX55 and then loading V0..VX with FX65 at the
same index register (with `index_register + X < 4096` so every address is in
range) restores registers V0..VX to their original values. -/
theorem C6_store_load_roundtrip (c : Chip8) (X : Nat) (hX : X < 16)
    (hI : c.index_register + X < 4096) :
    ∃ c1 c2, c.execute_instruction (opcode 0xF X 0x5 0x5) = some c1 ∧
      c1.execute_instruction (opcode 0xF X 0x6 0x5) = some c2 ∧
      ∀ r, r ≤ X → c2.registers r = c.registers r := by
  have step1 : c.execute_instruction (opcode 0xF X 0x5 0x5) =
      some (Chip8.storeRegs (X + 1) 0 c) := by
    have h1 := nib1 0xF X 0x5 0x5 (by norm_num) hX (by norm_num) (by norm_num)
    have h2 := nib2 0xF X 0x5 0x5 (by norm_num) hX (by norm_num) (by norm_num)
    have h34 := nib34 0xF X 0x5 0x5 (by norm_num) hX (by norm_num) (by norm_num)
    simp only [Chip8.execute_instruction, h1, h2, h34]
    norm_num
  set c1 := Chip8.storeRegs (X + 1) 0 c with hc1
  have step2 : c1.execute_instruction (opcode 0xF X 0x6 0x5) =
      some (Chip8.loadRegs (X + 1) 0 c1) := by
    have h1 := nib1 0xF X 0x6 0x5 (by norm_num) hX (by norm_num) (by norm_num)
    have h2 := nib2 0xF X 0x6 0x5 (by norm_num) hX (by norm_num) (by norm_num)
    have h34 := nib34 0xF X 0x6 0x5 (by norm_num) hX (by norm_num) (by norm_num)
    simp only [Chip8.execute_instruction, h1, h2, h34]
    norm_num
  refine ⟨c1, Chip8.loadRegs (X + 1) 0 c1, step1, step2, ?_⟩
  intro r hr
  have hIdx : c1.index_register = c.index_register := storeRegs_index (X + 1) 0 c
  rw [loadRegs_registers_hit (X + 1) 0 c1 c.index_register r hIdx (by omega) (by omega)]
  rw [Nat.mod_eq_of_lt (by omega)]
  rw [hc1, storeRegs_memory_hit (X + 1) 0 c c.index_register r rfl (by omega) (by omega)
    (by omega)]

/-- Witness for C6 at X = 1 with V0 = 7, V1 = 9 and index register 0x300. -/
theorem C6_store_load_roundtrip_witness :
    ∃ c1 c2, c6state.execute_instruction (opcode 0xF 1 0x5 0x5) = some c1 ∧
      c1.execute_instruction (opcode 0xF 1 0x6 0x5) = some c2 ∧
      ∀ r, r ≤ 1 → c2.registers r = c6state.registers r :=
  C6_store_load_roundtrip c6state 1 (by decide) (by decide)

/-! ## drawBit lemmas -/

theorem drawBit_eq (c : Chip8) (x yi byte j : Nat) :
    Chip8.drawBit c x yi byte j =
      if ((byte >>> (7 - j)) &&& 1) = 1 ∧ x + j < 64 ∧ yi < 32 then
        (if c.display yi (x + j) then
          { c with
              display := updDisp c.display (x + j) yi (!(c.display yi (x + j))),
              registers := updf c.registers 15 1 }
         else
          { c with display := updDisp c.display (x + j) yi (!(c.display yi (x + j))) })
      else c := by
  by_cases hbit : ((byte >>> (7 - j)) &&& 1) = 1 <;>
    by_cases hx : x + j < 64 <;>
    by_cases hy : yi < 32 <;>
    simp [Chip8.drawBit, Chip8.get_pixel, Chip8.set_pixel, DISPLAY_WIDTH, DISPLAY_HEIGHT,
      hbit, hx, hy]

theorem drawBit_display (c : Chip8) (x yi byte j cy cx : Nat) :
    (Chip8.drawBit c x yi byte j).display cy cx =
      if cy = yi ∧ cx = x + j ∧ ((byte >>> (7 - j)) &&& 1) = 1 ∧ x + j < 64 ∧ yi < 32
      then !(c.display cy cx) else c.display cy cx := by
  rw [drawBit_eq]
  generalize ((byte >>> (7 - j)) &&& 1) = bv
  by_cases hbit : bv = 1 <;>
    by_cases hx : x + j < 64 <;>
    by_cases hy : yi < 32 <;>
    by_cases hcy : cy = yi <;>
    by_cases hcx : cx = x + j <;>
    by_cases hscr : c.display yi (x + j) <;>
    simp [updDisp, hbit, hx, hy, hcy, hcx, hscr]

theorem drawBit_registers (c : Chip8) (x yi byte j r : Nat) :
    (Chip8.drawBit c x yi byte j).registers r =
      if r = 15 ∧ ((byte >>> (7 - j)) &&& 1) = 1 ∧ x + j < 64 ∧ yi < 32 ∧
          c.display yi (x + j) = true
      then 1 else c.registers r := by
  rw [drawBit_eq]
  generalize ((byte >>> (7 - j)) &&& 1) = bv
  by_cases hbit : bv = 1 <;>
    by_cases hx : x + j < 64 <;>
    by_cases hy : yi < 32 <;>
    by_cases hscr : c.display yi (x + j) <;>
    by_cases hr : r = 15 <;>
    simp [updf, hbit, hx, hy, hscr, hr]

theorem drawBit_memory (c : Chip8) (x yi byte j : Nat) :
    (Chip8.drawBit c x yi byte j).memory = c.memory := by
  rw [drawBit_eq]
  split_ifs <;> rfl

theorem drawBit_index (c : Chip8) (x yi byte j : Nat) :
    (Chip8.drawBit c x yi byte j).index_register = c.index_register := by
  rw [drawBit_eq]
  split_ifs <;> rfl

/-! ## drawRow lemmas -/

theorem ite_toggle (H R : Prop) [Decidable H] [Decidable R] (hx : ¬(H ∧ R)) (d : Bool) :
    (if R then !(if H then !d else d) else (if H then !d else d)) =
      if H ∨ R then !d else d := by
  by_cases hH : H <;> by_cases hR : R
  · exact absurd ⟨hH, hR⟩ hx
  · simp [hH, hR]
  · simp [hH, hR]
  · simp [hH, hR]

theorem ite_or_one (A H R : Prop) [Decidable A] [Decidable H] [Decidable R] (z : Nat) :
    (if A ∧ R then 1 else if A ∧ H then 1 else z) = if A ∧ (H ∨ R) then 1 else z := by
  by_cases hA : A <;> by_cases hH : H <;> by_cases hR : R <;> simp [hA, hH, hR]

theorem rowHit_zero (x yi byte j cy cx : Nat) : ¬ rowHit x yi byte j 0 cy cx := by
  unfold rowHit
  rintro ⟨-, -, t, ht, -⟩
  omega

theorem rowHit_break (x yi byte j fuel cy cx : Nat) (h : 64 ≤ x + j) :
    ¬ rowHit x yi byte j fuel cy cx := by
  unfold rowHit
  rintro ⟨-, -, t, -, -, hlt, -⟩
  omega

theorem rowHit_succ (x yi byte j fuel cy cx : Nat) :
    rowHit x yi byte j (fuel + 1) cy cx ↔
      (cy = yi ∧ cx = x + j ∧ ((byte >>> (7 - j)) &&& 1) = 1 ∧ x + j < 64 ∧ yi < 32)
      ∨ rowHit x yi byte (j + 1) fuel cy cx := by
  unfold rowHit
  constructor
  · rintro ⟨hcy, hyi, t, ht, hcx, hlt, hbit⟩
    cases t with
    | zero =>
      left
      rw [Nat.add_zero] at hcx hlt hbit
      exact ⟨hcy, hcx, hbit, hlt, hyi⟩
    | succ u =>
      right
      have he : j + (u + 1) = j + 1 + u := by omega
      rw [he] at hcx hlt hbit
      exact ⟨hcy, hyi, u, by omega, hcx, hlt, hbit⟩
  · rintro (⟨hcy, hcx, hbit, hlt, hyi⟩ | ⟨hcy, hyi, t, ht, hcx, hlt, hbit⟩)
    · refine ⟨hcy, hyi, 0, by omega, ?_, ?_, ?_⟩ <;> rw [Nat.add_zero] <;> assumption
    · have he : j + 1 + t = j + (t + 1) := by omega
      rw [he] at hcx hlt hbit
      exact ⟨hcy, hyi, t + 1, by omega, hcx, hlt, hbit⟩

theorem rowVF_zero (d : Nat → Nat → Bool) (x yi byte j : Nat) : ¬ rowVF d x yi byte j 0 := by
  unfold rowVF
  rintro ⟨-, t, ht, -⟩
  omega

theorem rowVF_break (d : Nat → Nat → Bool) (x yi byte j fuel : Nat) (h : 64 ≤ x + j) :
    ¬ rowVF d x yi byte j fuel := by
  unfold rowVF
  rintro ⟨-, t, -, hlt, -⟩
  omega

theorem rowVF_succ (d : Nat → Nat → Bool) (x yi byte j fuel : Nat) :
    rowVF d x yi byte j (fuel + 1) ↔
      (((byte >>> (7 - j)) &&& 1) = 1 ∧ x + j < 64 ∧ yi < 32 ∧ d yi (x + j) = true)
      ∨ rowVF d x yi byte (j + 1) fuel := by
  unfold rowVF
  constructor
  · rintro ⟨hyi, t, ht, hlt, hbit, hd⟩
    cases t with
    | zero =>
      left
      rw [Nat.add_zero] at hlt hbit hd
      exact ⟨hbit, hlt, hyi, hd⟩
    | succ u =>
      right
      have he : j + (u + 1) = j + 1 + u := by omega
      rw [he] at hlt hbit hd
      exact ⟨hyi, u, by omega, hlt, hbit, hd⟩
  · rintro (⟨hbit, hlt, hyi, hd⟩ | ⟨hyi, t, ht, hlt, hbit, hd⟩)
    · refine ⟨hyi, 0, by omega, ?_, ?_, ?_⟩ <;> rw [Nat.add_zero] <;> assumption
    · have he : j + 1 + t = j + (t + 1) := by omega
      rw [he] at hlt hbit hd
      exact ⟨hyi, t + 1, by omega, hlt, hbit, hd⟩

theorem rowVF_drawBit (c : Chip8) (x yi byte j fuel : Nat) :
    rowVF ((Chip8.drawBit c x yi byte j).display) x yi byte (j + 1) fuel ↔
      rowVF c.display x yi byte (j + 1) fuel := by
  unfold rowVF
  constructor <;> rintro ⟨hyi, t, ht, hlt, hbit, hd⟩ <;>
    refine ⟨hyi, t, ht, hlt, hbit, ?_⟩
  · rw [drawBit_display, if_neg (by rintro ⟨-, hc, -⟩; omega)] at hd
    exact hd
  · rw [drawBit_display, if_neg (by rintro ⟨-, hc, -⟩; omega)]
    exact hd

theorem drawRow_memory (x yi byte fuel : Nat) : ∀ (j : Nat) (c : Chip8),
    (Chip8.drawRow x yi byte fuel j c).memory = c.memory := by
  induction fuel with
  | zero => intro j c; rfl
  | succ f ih =>
    intro j c
    simp only [Chip8.drawRow]
    split
    · rfl
    · rw [ih, drawBit_memory]

theorem drawRow_index (x yi byte fuel : Nat) : ∀ (j : Nat) (c : Chip8),
    (Chip8.drawRow x yi byte fuel j c).index_register = c.index_register := by
  induction fuel with
  | zero => intro j c; rfl
  | succ f ih =>
    intro j c
    simp only [Chip8.drawRow]
    split
    · rfl
    · rw [ih, drawBit_index]

theorem drawRow_display (x yi byte fuel : Nat) : ∀ (j : Nat) (c : Chip8) (cy cx : Nat),
    (Chip8.drawRow x yi byte fuel j c).display cy cx =
      if rowHit x yi byte j fuel cy cx then !(c.display cy cx) else c.display cy cx := by
  induction fuel with
  | zero =>
    intro j c cy cx
    rw [if_neg (rowHit_zero x yi byte j cy cx)]
    rfl
  | succ f ih =>
    intro j c cy cx
    simp only [Chip8.drawRow]
    by_cases hbr : x + j > DISPLAY_WIDTH
    · rw [if_pos hbr,
        if_neg (rowHit_break x yi byte j (f + 1) cy cx
          (by simp only [DISPLAY_WIDTH] at hbr; omega))]
    · rw [if_neg hbr, ih (j + 1) (Chip8.drawBit c x yi byte j) cy cx, drawBit_display]
      simp only [rowHit_succ]
      refine ite_toggle _ _ ?_ (c.display cy cx)
      rintro ⟨⟨-, hcx0, -⟩, hrec⟩
      unfold rowHit at hrec
      obtain ⟨-, -, t, -, hcx1, -, -⟩ := hrec
      omega

theorem drawRow_registers (x yi byte fuel : Nat) : ∀ (j : Nat) (c : Chip8) (r : Nat),
    (Chip8.drawRow x yi byte fuel j c).registers r =
      if r = 15 ∧ rowVF c.display x yi byte j fuel then 1 else c.registers r := by
  induction fuel with
  | zero =>
    intro j c r
    rw [if_neg (by rintro ⟨-, hv⟩; exact rowVF_zero _ _ _ _ _ hv)]
    rfl
  | succ f ih =>
    intro j c r
    simp only [Chip8.drawRow]
    by_cases hbr : x + j > DISPLAY_WIDTH
    · rw [if_pos hbr,
        if_neg (by
          rintro ⟨-, hv⟩
          exact rowVF_break _ _ _ _ _ _ (by simp only [DISPLAY_WIDTH] at hbr; omega) hv)]
    · rw [if_neg hbr, ih (j + 1) (Chip8.drawBit c x yi byte j) r]
      simp only [rowVF_drawBit]
      rw [drawBit_registers]
      simp only [rowVF_succ]
      exact ite_or_one _ _ _ _

/-! ## drawRows lemmas -/

theorem sprHit_zero (m : Nat → Nat) (x y index i cy cx : Nat) :
    ¬ sprHit m x y index i 0 cy cx := by
  unfold sprHit
  rintro ⟨s, hs, -⟩
  omega

theorem sprHit_break (m : Nat → Nat) (x y index i fuel cy cx : Nat) (h : 32 < y + i) :
    ¬ sprHit m x y index i fuel cy cx := by
  unfold sprHit
  rintro ⟨s, -, -, hlt, -⟩
  omega

theorem sprHit_succ (m : Nat → Nat) (x y index i fuel cy cx : Nat) :
    sprHit m x y index i (fuel + 1) cy cx ↔
      rowHit x (y + i) (m index) 0 8 cy cx ∨ sprHit m x y (index + 1) (i + 1) fuel cy cx := by
  unfold sprHit rowHit
  constructor
  · rintro ⟨s, hs, hcy, hlt, t, ht, hcx, hxt, hbit⟩
    cases s with
    | zero =>
      left
      rw [Nat.add_zero] at hcy hlt hbit
      refine ⟨hcy, hlt, t, ht, ?_, ?_, ?_⟩ <;> rw [Nat.zero_add] <;> assumption
    | succ u =>
      right
      have he1 : i + (u + 1) = i + 1 + u := by omega
      have he2 : index + (u + 1) = index + 1 + u := by omega
      rw [he1] at hcy hlt
      rw [he2] at hbit
      exact ⟨u, by omega, hcy, hlt, t, ht, hcx, hxt, hbit⟩
  · rintro (⟨hcy, hlt, t, ht, hcx, hxt, hbit⟩ | ⟨s, hs, hcy, hlt, t, ht, hcx, hxt, hbit⟩)
    · rw [Nat.zero_add] at hcx hxt hbit
      refine ⟨0, by omega, ?_, ?_, t, ht, hcx, hxt, ?_⟩ <;> rw [Nat.add_zero] <;> assumption
    · have he1 : i + 1 + s = i + (s + 1) := by omega
      have he2 : index + 1 + s = index + (s + 1) := by omega
      rw [he1] at hcy hlt
      rw [he2] at hbit
      exact ⟨s + 1, by omega, hcy, hlt, t, ht, hcx, hxt, hbit⟩

theorem sprVF_zero (m : Nat → Nat) (d : Nat → Nat → Bool) (x y index i : Nat) :
    ¬ sprVF m d x y index i 0 := by
  unfold sprVF
  rintro ⟨s, hs, -⟩
  omega

theorem sprVF_break (m : Nat → Nat) (d : Nat → Nat → Bool) (x y index i fuel : Nat)
    (h : 32 < y + i) : ¬ sprVF m d x y index i fuel := by
  unfold sprVF
  rintro ⟨s, -, hlt, -⟩
  omega

theorem sprVF_succ (m : Nat → Nat) (d : Nat → Nat → Bool) (x y index i fuel : Nat) :
    sprVF m d x y index i (fuel + 1) ↔
      rowVF d x (y + i) (m index) 0 8 ∨ sprVF m d x y (index + 1) (i + 1) fuel := by
  unfold sprVF rowVF
  constructor
  · rintro ⟨s, hs, hlt, t, ht, hxt, hbit, hd⟩
    cases s with
    | zero =>
      left
      rw [Nat.add_zero] at hlt hbit hd
      refine ⟨hlt, t, ht, ?_, ?_, ?_⟩ <;> rw [Nat.zero_add] <;> assumption
    | succ u =>
      right
      have he1 : i + (u + 1) = i + 1 + u := by omega
      have he2 : index + (u + 1) = index + 1 + u := by omega
      rw [he1] at hlt hd
      rw [he2] at hbit
      exact ⟨u, by omega, hlt, t, ht, hxt, hbit, hd⟩
  · rintro (⟨hlt, t, ht, hxt, hbit, hd⟩ | ⟨s, hs, hlt, t, ht, hxt, hbit, hd⟩)
    · rw [Nat.zero_add] at hxt hbit hd
      refine ⟨0, by omega, ?_, t, ht, hxt, ?_, ?_⟩ <;> rw [Nat.add_zero] <;> assumption
    · have he1 : i + 1 + s = i + (s + 1) := by omega
      have he2 : index + 1 + s = index + (s + 1) := by omega
      rw [he1] at hlt hd
      rw [he2] at hbit
      exact ⟨s + 1, by omega, hlt, t, ht, hxt, hbit, hd⟩

theorem sprVF_drawRow (m : Nat → Nat) (c : Chip8) (x y byte : Nat) (index' i fuel : Nat) :
    sprVF m ((Chip8.drawRow x (y + i) byte 8 0 c).display) x y index' (i + 1) fuel ↔
      sprVF m c.display x y index' (i + 1) fuel := by
  unfold sprVF
  constructor <;> rintro ⟨s, hs, hlt, t, ht, hxt, hbit, hd⟩ <;>
    refine ⟨s, hs, hlt, t, ht, hxt, hbit, ?_⟩
  · rw [drawRow_display, if_neg (by rintro ⟨hcy, -⟩; omega)] at hd
    exact hd
  · rw [drawRow_display, if_neg (by rintro ⟨hcy, -⟩; omega)]
    exact hd

theorem drawRows_memory (x y fuel : Nat) : ∀ (i index : Nat) (c : Chip8),
    (Chip8.drawRows x y fuel i index c).memory = c.memory := by
  induction fuel with
  | zero => intro i index c; rfl
  | succ f ih =>
    intro i index c
    simp only [Chip8.drawRows]
    split
    · rfl
    · rw [ih, drawRow_memory]

theorem drawRows_index (x y fuel : Nat) : ∀ (i index : Nat) (c : Chip8),
    (Chip8.drawRows x y fuel i index c).index_register = c.index_register := by
  induction fuel with
  | zero => intro i index c; rfl
  | succ f ih =>
    intro i index c
    simp only [Chip8.drawRows]
    split
    · rfl
    · rw [ih, drawRow_index]

theorem drawRows_display (x y fuel : Nat) : ∀ (i index : Nat) (c : Chip8) (cy cx : Nat),
    (Chip8.drawRows x y fuel i index c).display cy cx =
      if sprHit c.memory x y index i fuel cy cx then !(c.display cy cx) else c.display cy cx := by
  induction fuel with
  | zero =>
    intro i index c cy cx
    rw [if_neg (sprHit_zero _ _ _ _ _ _ _)]
    rfl
  | succ f ih =>
    intro i index c cy cx
    simp only [Chip8.drawRows]
    by_cases hbr : y + i > DISPLAY_HEIGHT
    · rw [if_pos hbr,
        if_neg (sprHit_break _ _ _ _ _ _ _ _ (by simp only [DISPLAY_HEIGHT] at hbr; omega))]
    · rw [if_neg hbr, ih (i + 1) (index + 1) (Chip8.drawRow x (y + i) (c.memory index) 8 0 c)
        cy cx]
      rw [drawRow_memory, drawRow_display]
      simp only [sprHit_succ]
      refine ite_toggle _ _ ?_ (c.display cy cx)
      rintro ⟨hrow, hrec⟩
      unfold rowHit at hrow
      unfold sprHit at hrec
      obtain ⟨hcy0, -⟩ := hrow
      obtain ⟨s, -, hcy1, -⟩ := hrec
      omega

theorem drawRows_registers (x y fuel : Nat) : ∀ (i index : Nat) (c : Chip8) (r : Nat),
    (Chip8.drawRows x y fuel i index c).registers r =
      if r = 15 ∧ sprVF c.memory c.display x y index i fuel then 1 else c.registers r := by
  induction fuel with
  | zero =>
    intro i index c r
    rw [if_neg (by rintro ⟨-, hv⟩; exact sprVF_zero _ _ _ _ _ _ hv)]
    rfl
  | succ f ih =>
    intro i index c r
    simp only [Chip8.drawRows]
    by_cases hbr : y + i > DISPLAY_HEIGHT
    · rw [if_pos hbr,
        if_neg (by
          rintro ⟨-, hv⟩
          exact sprVF_break _ _ _ _ _ _ _ (by simp only [DISPLAY_HEIGHT] at hbr; omega) hv)]
    · rw [if_neg hbr, ih (i + 1) (index + 1) (Chip8.drawRow x (y + i) (c.memory index) 8 0 c) r]
      simp only [drawRow_memory, sprVF_drawRow]
      rw [drawRow_registers]
      simp only [sprVF_succ]
      exact ite_or_one _ _ _ _

/-! ## draw_sprite lemmas -/

theorem draw_sprite_display (c : Chip8) (x y h cy cx : Nat) :
    (c.draw_sprite x y h).display cy cx =
      if sprHit c.memory x y c.index_register 0 h cy cx then !(c.display cy cx)
      else c.display cy cx := by
  unfold Chip8.draw_sprite
  rw [drawRows_display]

theorem draw_sprite_vf (c : Chip8) (x y h : Nat) :
    (c.draw_sprite x y h).registers 15 =
      if sprVF c.memory c.display x y c.index_register 0 h then 1 else 0 := by
  unfold Chip8.draw_sprite
  rw [drawRows_registers]
  by_cases hv : sprVF c.memory c.display x y c.index_register 0 h
  · rw [if_pos ⟨rfl, hv⟩, if_pos hv]
  · rw [if_neg (by rintro ⟨-, hvv⟩; exact hv hvv), if_neg hv]
    show updf c.registers 15 0 15 = 0
    exact updf_self _ _ _

theorem draw_sprite_regs_other (c : Chip8) (x y h r : Nat) (hr : r ≠ 15) :
    (c.draw_sprite x y h).registers r = c.registers r := by
  unfold Chip8.draw_sprite
  rw [drawRows_registers, if_neg (by rintro ⟨h15, -⟩; exact hr h15)]
  show updf c.registers 15 0 r = c.registers r
  exact updf_other _ _ _ _ hr

theorem draw_sprite_memory (c : Chip8) (x y h : Nat) :
    (c.draw_sprite x y h).memory = c.memory := by
  unfold Chip8.draw_sprite
  rw [drawRows_memory]

theorem draw_sprite_index (c : Chip8) (x y h : Nat) :
    (c.draw_sprite x y h).index_register = c.index_register := by
  unfold Chip8.draw_sprite
  rw [drawRows_index]

theorem exec_dxyn (c : Chip8) (X Y N : Nat) (hX : X < 16) (hY : Y < 16) (hN : N < 16) :
    c.execute_instruction (opcode 0xD X Y N) =
      some (c.draw_sprite (c.registers X % 64) (c.registers Y % 32) N) := by
  have h1 := nib1 0xD X Y N (by norm_num) hX hY hN
  have h2 := nib2 0xD X Y N (by norm_num) hX hY hN
  have h3 := nib3 0xD X Y N (by norm_num) hX hY hN
  have h4 := nib4 0xD X Y N (by norm_num) hX hY hN
  simp only [Chip8.execute_instruction, h1, h2, h3, h4, DISPLAY_WIDTH, DISPLAY_HEIGHT]
  norm_num

/-- C5: DXYN draws at origin (VX mod 64, VY mod 32); cells outside the 64×32
grid are never written (the sprite body clips, it does not wrap), and any
cell that is not the target of a set sprite bit is left unchanged. -/
theorem C5_dxyn_clips (c : Chip8) (X Y N : Nat) (hX : X < 16) (hY : Y < 16) (hN : N < 16) :
    ∃ c', c.execute_instruction (opcode 0xD X Y N) = some c' ∧
      c' = c.draw_sprite (c.registers X % 64) (c.registers Y % 32) N ∧
      (∀ cy cx, 64 ≤ cx ∨ 32 ≤ cy → c'.display cy cx = c.display cy cx) ∧
      (∀ cy cx,
        ¬(∃ i, i < N ∧ ∃ j, j < 8 ∧ cy = c.registers Y % 32 + i ∧
            cx = c.registers X % 64 + j ∧
            ((c.memory (c.index_register + i) >>> (7 - j)) &&& 1) = 1) →
        c'.display cy cx = c.display cy cx) := by
  refine ⟨_, exec_dxyn c X Y N hX hY hN, rfl, ?_, ?_⟩
  · intro cy cx hor
    have hns : ¬ sprHit c.memory (c.registers X % 64) (c.registers Y % 32)
        c.index_register 0 N cy cx := by
      intro hh
      unfold sprHit at hh
      obtain ⟨s, -, hcy, hlt, t, -, hcx, hxt, -⟩ := hh
      rcases hor with h64 | h32 <;> omega
    rw [draw_sprite_display, if_neg hns]
  · intro cy cx hno
    have hns : ¬ sprHit c.memory (c.registers X % 64) (c.registers Y % 32)
        c.index_register 0 N cy cx := by
      intro hh
      unfold sprHit at hh
      obtain ⟨s, hs, hcy, hlt, t, ht, hcx, hxt, hbit⟩ := hh
      exact hno ⟨s, hs, t, ht, by omega, hcx, hbit⟩
    rw [draw_sprite_display, if_neg hns]

/-- Witness for C5 at a concrete state (X = 0, Y = 1, N = 1). -/
theorem C5_dxyn_clips_witness :
    ∃ c', c4state.execute_instruction (opcode 0xD 0 1 1) = some c' ∧
      c' = c4state.draw_sprite (c4state.registers 0 % 64) (c4state.registers 1 % 32) 1 ∧
      (∀ cy cx, 64 ≤ cx ∨ 32 ≤ cy → c'.display cy cx = c4state.display cy cx) ∧
      (∀ cy cx,
        ¬(∃ i, i < 1 ∧ ∃ j, j < 8 ∧ cy = c4state.registers 1 % 32 + i ∧
            cx = c4state.registers 0 % 64 + j ∧
            ((c4state.memory (c4state.index_register + i) >>> (7 - j)) &&& 1) = 1) →
        c'.display cy cx = c4state.display cy cx) :=
  C5_dxyn_clips c4state 0 1 1 (by decide) (by decide) (by decide)

/-- C4: starting from an all-false framebuffer, executing DXYN twice (with
X, Y ≠ 0xF so the operand registers are identical at both executions; the
index register and sprite memory are untouched by drawing) restores the
framebuffer to all-false, and the second draw reports a collision in VF
provided at least one set sprite bit lands inside the grid. -/
theorem C4_double_draw_restores (c : Chip8) (X Y N : Nat) (hX : X < 16) (hY : Y < 16)
    (hXF : X ≠ 15) (hYF : Y ≠ 15) (hN1 : 1 ≤ N) (hN : N < 16)
    (hblank : ∀ cy, cy < 32 → ∀ cx, cx < 64 → c.display cy cx = false)
    (hsome : ∃ i, i < N ∧ c.registers Y % 32 + i < 32 ∧ ∃ j, j < 8 ∧
      c.registers X % 64 + j < 64 ∧
      ((c.memory (c.index_register + i) >>> (7 - j)) &&& 1) = 1) :
    ∃ c1 c2, c.execute_instruction (opcode 0xD X Y N) = some c1 ∧
      c1.execute_instruction (opcode 0xD X Y N) = some c2 ∧
      (∀ cy, cy < 32 → ∀ cx, cx < 64 → c2.display cy cx = false) ∧
      c2.registers 15 = 1 := by
  have step1 := exec_dxyn c X Y N hX hY hN
  set x0 := c.registers X % 64 with hx0
  set y0 := c.registers Y % 32 with hy0
  set c1 := c.draw_sprite x0 y0 N with hc1
  have hregX : c1.registers X = c.registers X := draw_sprite_regs_other c x0 y0 N X hXF
  have hregY : c1.registers Y = c.registers Y := draw_sprite_regs_other c x0 y0 N Y hYF
  have hmem : c1.memory = c.memory := draw_sprite_memory c x0 y0 N
  have hidx : c1.index_register = c.index_register := draw_sprite_index c x0 y0 N
  have step2 : c1.execute_instruction (opcode 0xD X Y N) = some (c1.draw_sprite x0 y0 N) := by
    have h := exec_dxyn c1 X Y N hX hY hN
    rwa [hregX, hregY, ← hx0, ← hy0] at h
  have hd1 : ∀ cy cx, c1.display cy cx =
      if sprHit c.memory x0 y0 c.index_register 0 N cy cx then !(c.display cy cx)
      else c.display cy cx := by
    intro cy cx
    rw [hc1, draw_sprite_display]
  refine ⟨c1, c1.draw_sprite x0 y0 N, step1, step2, ?_, ?_⟩
  · intro cy hcy cx hcx
    rw [draw_sprite_display, hmem, hidx, hd1 cy cx]
    by_cases hh : sprHit c.memory x0 y0 c.index_register 0 N cy cx
    · rw [if_pos hh, if_pos hh, hblank cy hcy cx hcx]
      rfl
    · rw [if_neg hh, if_neg hh]
      exact hblank cy hcy cx hcx
  · rw [draw_sprite_vf, hmem, hidx]
    rw [if_pos ?_]
    obtain ⟨i, hi, hyi, j, hj, hxj, hbit⟩ := hsome
    unfold sprVF
    refine ⟨i, hi, by omega, j, hj, by omega, hbit, ?_⟩
    rw [Nat.zero_add, hd1 (y0 + i) (x0 + j)]
    have hh : sprHit c.memory x0 y0 c.index_register 0 N (y0 + i) (x0 + j) := by
      unfold sprHit
      exact ⟨i, hi, by omega, by omega, j, hj, rfl, by omega, hbit⟩
    rw [if_pos hh, hblank (y0 + i) (by omega) (x0 + j) (by omega)]
    rfl

/-- Witness for C4: one-byte sprite 0x80 at index 0x300 drawn twice at
(0, 0) on a blank display. -/
theorem C4_double_draw_restores_witness :
    ∃ c1 c2, c4state.execute_instruction (opcode 0xD 0 1 1) = some c1 ∧
      c1.execute_instruction (opcode 0xD 0 1 1) = some c2 ∧
      (∀ cy, cy < 32 → ∀ cx, cx < 64 → c2.display cy cx = false) ∧
      c2.registers 15 = 1 :=
  C4_double_draw_restores c4state 0 1 1 (by decide) (by decide) (by decide) (by decide)
    (by decide) (by decide) (fun _ _ _ _ => rfl)
    ⟨0, by decide, by decide, 0, by decide, by decide, by decide⟩
